import Mathlib

/-!
Verification of the bounded-parallel docking and result-ranking pipeline of
the Molecular_Docking scripts (Docking1.py, Docking2.py, MOL2_top_poses.py).

The development embeds, faithfully to the Python source:
  * the score/pose extraction from PSOVina result files
    (Docking1.docking_process collection loop, MOL2_top_poses.get_best_score_and_pose);
  * the ranking and truncation of results
    (results.sort(key=lambda x: x[0]); results[:k]), including CPython's
    behaviour of raising TypeError when a None key is compared with a float;
  * the bounded process scheduler loop shared by Docking1.docking_process and
    Docking2.second_round_docking, as a small-step transition system in which
    job termination is an environment-controlled event.

Python floats are modelled as exact rationals: the pipeline only ever compares
scores, and every property at issue depends only on the ordering of the score
values, which agrees between IEEE doubles and the rationals they denote for
the decimal literals involved.
-/

namespace Docking

/-- The exact rational denoted by a decimal score literal parsed by
`float(line.split()[3])`, given by its numerator and denominator in lowest
terms (for example -9.3 is `scoreLit (-93) 10`).  Building the rational
directly from its reduced fraction keeps every score computation reducible by
the kernel. -/
def scoreLit (n : ℤ) (d : ℕ) (h1 : d ≠ 0 := by decide)
    (h2 : n.natAbs.Coprime d := by decide) : ℚ :=
  ⟨n, d, h1, h2⟩

/-- Models the Python filter `f.endswith(".pdbqt")` applied to every
directory listing in the scripts: true exactly when the last six characters
of the name are ".pdbqt". -/
def endsWithPdbqt (n : String) : Bool :=
  n.data.reverse.take 6 == ".pdbqt".data.reverse

/-- One line of a PSOVina result file, abstracted to exactly the tokens the
scripts inspect.  `vinaResult s` stands for a line containing
"REMARK VINA RESULT:" whose fourth whitespace-separated field is the score
`s`; `modelMark` is a line containing "MODEL"; `endmdlMark` is the literal
"ENDMDL" line; `other` is any other line. -/
inductive Line where
  | vinaResult (score : ℚ)
  | modelMark
  | endmdlMark
  | other
deriving DecidableEq

/-- A Python runtime exception observed by the embedded code: `typeError` for
comparing `None` with a float inside `list.sort`, `valueError` for
`list.index` on a missing element. -/
inductive PyErr where
  | typeError
  | valueError
deriving DecidableEq

/-- Score extraction: the first loop of
`MOL2_top_poses.get_best_score_and_pose` and the per-file loop of
`Docking1.docking_process` (lines 72-77) both scan the lines in order and take
the score of the first "REMARK VINA RESULT:" line, leaving `best_score = None`
when no such line exists. -/
def get_best_score : List Line → Option ℚ
  | [] => none
  | Line.vinaResult s :: _ => some s
  | Line.modelMark :: rest => get_best_score rest
  | Line.endmdlMark :: rest => get_best_score rest
  | Line.other :: rest => get_best_score rest

/-- Pose extraction: the second loop of
`MOL2_top_poses.get_best_score_and_pose`.  On the first line containing
"MODEL" it evaluates
`lines[lines.index(line) : lines.index("ENDMDL\n") + 1]`; `list.index` raises
`ValueError` when no "ENDMDL" line exists.  When no "MODEL" line exists the
pose stays `[]`. -/
def get_best_pose (lines : List Line) : Except PyErr (List Line) :=
  match lines.findIdx? (· == Line.modelMark) with
  | none => Except.ok []
  | some i =>
    match lines.findIdx? (· == Line.endmdlMark) with
    | none => Except.error PyErr.valueError
    | some j => Except.ok ((lines.drop i).take (j + 1 - i))

/-- Embeds `MOL2_top_poses.get_best_score_and_pose`: best score together with
the best pose block. -/
def get_best_score_and_pose (lines : List Line) :
    Except PyErr (Option ℚ × List Line) := do
  let pose ← get_best_pose lines
  pure (get_best_score lines, pose)

/-- One file of a results directory: its file name and its parsed lines. -/
structure ResultFile where
  name : String
  lines : List Line
deriving DecidableEq

/-- Result collection of `Docking1.docking_process` (lines 69-77): for each
file of the results directory whose name ends in ".pdbqt", append
`(binding_affinity, file)` built from the first "REMARK VINA RESULT:" line;
a file with no such line contributes nothing (the inner loop finds no line,
so nothing is appended and the next file is processed). -/
def docking1Results : List ResultFile → List (ℚ × String)
  | [] => []
  | f :: rest =>
    if endsWithPdbqt f.name then
      match get_best_score f.lines with
      | some s => (s, f.name) :: docking1Results rest
      | none => docking1Results rest
    else docking1Results rest

/-- The key order used by `results.sort(key=lambda x: x[0])` in
`docking_process`: entries are compared by their score component.  CPython's
sort is stable; the insertion sort used below agrees with it except possibly
on the relative order of equal scores, on which no verified property
depends. -/
def byScore (a b : ℚ × String) : Prop := a.1 ≤ b.1

instance : DecidableRel byScore := fun a b => inferInstanceAs (Decidable (a.1 ≤ b.1))

instance : IsTotal (ℚ × String) byScore := ⟨fun a b => le_total a.1 b.1⟩

instance : IsTrans (ℚ × String) byScore := ⟨fun _ _ _ h1 h2 => le_trans h1 h2⟩

/-- The ranked selection of `docking_process` (Docking1.py lines 78-81):
`results.sort(key=lambda x: x[0])` followed by `results[:k]`; the call site
uses `k = 500`. -/
def rankedSelection (k : ℕ) (files : List ResultFile) : List (ℚ × String) :=
  (List.insertionSort byScore (docking1Results files)).take k

/-- Number of files of a results directory that pass the ".pdbqt" filter and
yield a present score. -/
def countPresent (files : List ResultFile) : ℕ :=
  (files.filter (fun f => endsWithPdbqt f.name && (get_best_score f.lines).isSome)).length

/-- Collection loop of `MOL2_top_poses.analyze_results` (lines 46-52): for
each ".pdbqt" file of the second-round results directory, extract score and
pose; when the score is `None` the message
"Failed to extract binding affinity score from {file}" is printed; the record
is then appended to `results` in every case (there is no `continue`).
Returns the printed messages and the collected records, in program order. -/
def analyzeCollect : List ResultFile →
    Except PyErr (List String × List (Option ℚ × String × List Line))
  | [] => Except.ok ([], [])
  | f :: rest =>
    if endsWithPdbqt f.name then do
      let sp ← get_best_score_and_pose f.lines
      let mr ← analyzeCollect rest
      match sp.1 with
      | none =>
          pure (("Failed to extract binding affinity score from " ++ f.name) :: mr.1,
            (sp.1, f.name, sp.2) :: mr.2)
      | some _ => pure (mr.1, (sp.1, f.name, sp.2) :: mr.2)
    else analyzeCollect rest

/-- The comparison `key(a) < key(b)` that CPython's `list.sort` performs on
the score keys in `analyze_results`: comparing `None` with a float, or with
`None`, raises `TypeError`. -/
def pyLtScore : Option ℚ → Option ℚ → Except PyErr Bool
  | some a, some b => Except.ok (decide (a < b))
  | _, _ => Except.error PyErr.typeError

/-- Insert one record into an already sorted list using the fallible CPython
key comparison. -/
def pyOrderedInsert (a : Option ℚ × String × List Line) :
    List (Option ℚ × String × List Line) →
    Except PyErr (List (Option ℚ × String × List Line))
  | [] => Except.ok [a]
  | b :: l => do
    let lt ← pyLtScore a.1 b.1
    if lt then
      pure (a :: b :: l)
    else do
      let tail ← pyOrderedInsert a l
      pure (b :: tail)

/-- Embeds `results.sort(key=lambda x: x[0])` of `analyze_results` (line 54):
a comparison sort over the score keys with CPython comparison semantics.  On
any list of at least two records one of which has key `None` some comparison
involves `None`, so the sort raises `TypeError`; on records whose keys are all
present it sorts ascending by score. -/
def pySortResults : List (Option ℚ × String × List Line) →
    Except PyErr (List (Option ℚ × String × List Line))
  | [] => Except.ok []
  | a :: l => do
    let sorted ← pySortResults l
    pyOrderedInsert a sorted

/-- Ranking phase of `MOL2_top_poses.analyze_results` (lines 46-55): collect
the records, sort them by score, keep the first ten
(`top_10_poses = results[:10]`).  Returns the printed skip messages together
with the selection. -/
def analyzeRanking (files : List ResultFile) :
    Except PyErr (List String × List (Option ℚ × String × List Line)) := do
  let mr ← analyzeCollect files
  let sorted ← pySortResults mr.2
  pure (mr.1, sorted.take 10)

/-!
### The bounded process scheduler

Docking1.docking_process (lines 49-66) and Docking2.second_round_docking
(lines 45-62) contain one and the same scheduling loop, embedded below as a
small-step transition system over abstract job indices.
-/

/-- Program counter of the scheduler loop.  `loop` is the top of the `for`
loop over the pdbqt files; `check` is the point right after `Popen`, before
the `if len(processes) >= psutil.cpu_count()` test; `drain` is the final
`for p in processes: if p.poll() is None: p.wait()` loop; `done` is the point
where control returns to the caller. -/
inductive Pc where
  | loop
  | check
  | drain
  | done
deriving DecidableEq

/-- Scheduler state.  Jobs are numbered in input order; `next` is the number
of jobs launched so far (job `next` is the next one to launch), `tracked` is
the Python `processes` set, and `term` is the set of jobs whose external
process has terminated.  `term` is owned by the environment: it can grow at
any instant, reflecting that the children run concurrently and finish in an
unconstrained order. -/
structure St where
  next : ℕ
  tracked : Finset ℕ
  term : Finset ℕ
  pc : Pc

/-- Initial scheduler state: `processes = set()`, nothing launched, at the
top of the loop. -/
def initSt : St := { next := 0, tracked := ∅, term := ∅, pc := Pc.loop }

/-- Jobs launched but not yet terminated: the external processes actually
running at a given instant. -/
def activeSet (s : St) : Finset ℕ := Finset.range s.next \ s.term

/-- Small-step transition relation of the scheduler loop for a batch of `N`
jobs under concurrency ceiling `C` (the `psutil.cpu_count()` value), with job
termination as an environment event:

* `term`: the external process of a launched, still-running job terminates;
  possible at any instant, at any program point.
* `launch`: `processes.add(Popen(...))` launches the next pending job and
  moves to the ceiling test.
* `exitLoop`: the `for` loop over the input files is exhausted.
* `noWait`: the test `len(processes) >= C` is false; continue with the next
  file.
* `waitPrune`: the test holds, so `os.wait()` blocks until some not-yet
  reaped child has terminated, and `difference_update` then removes every
  terminated member of `processes`.  Every unreaped child is a member of
  `processes`: a job leaves the set only after `poll()` observed its
  termination, and `poll()` (or an earlier `os.wait()`) reaps it at that
  point, CPython's `_internal_poll` reporting an already-reaped child as
  terminated through its ECHILD branch.  The step is therefore enabled
  exactly when some tracked job has terminated; until then the scheduler is
  blocked, launching nothing.
* `drain`: the final loop `for p in processes: if p.poll() is None: p.wait()`
  returns control to the caller once every remaining tracked process has
  terminated (each `p.wait()` blocks until `p` has). -/
inductive Step (N C : ℕ) : St → St → Prop where
  | term (s : St) (j : ℕ) (hj : j < s.next) (hnt : j ∉ s.term) :
      Step N C s { s with term := insert j s.term }
  | launch (s : St) (hpc : s.pc = Pc.loop) (hn : s.next < N) :
      Step N C s { next := s.next + 1, tracked := insert s.next s.tracked,
                   term := s.term, pc := Pc.check }
  | exitLoop (s : St) (hpc : s.pc = Pc.loop) (hn : s.next = N) :
      Step N C s { s with pc := Pc.drain }
  | noWait (s : St) (hpc : s.pc = Pc.check) (hcard : s.tracked.card < C) :
      Step N C s { s with pc := Pc.loop }
  | waitPrune (s : St) (hpc : s.pc = Pc.check) (hcard : C ≤ s.tracked.card)
      (hw : (s.tracked ∩ s.term).Nonempty) :
      Step N C s { s with tracked := s.tracked \ s.term, pc := Pc.loop }
  | drain (s : St) (hpc : s.pc = Pc.drain) (hsub : s.tracked ⊆ s.term) :
      Step N C s { s with pc := Pc.done }

/-- The states the scheduler can reach from the initial state. -/
def Reach (N C : ℕ) (s : St) : Prop :=
  Relation.ReflTransGen (Step N C) initSt s

/-- Inductive invariant of the scheduler loop. -/
structure SchedInv (N C : ℕ) (s : St) : Prop where
  tracked_lt : ∀ j ∈ s.tracked, j < s.next
  active_mem : ∀ j, j < s.next → j ∉ s.term → j ∈ s.tracked
  next_le : s.next ≤ N
  card_check : s.pc = Pc.check → s.tracked.card ≤ C
  card_other : s.pc ≠ Pc.check → s.tracked.card + 1 ≤ C
  at_end : s.pc = Pc.drain ∨ s.pc = Pc.done → s.next = N
  done_term : s.pc = Pc.done → ∀ j, j < N → j ∈ s.term

theorem schedInv_init (N C : ℕ) (hC : 1 ≤ C) : SchedInv N C initSt := by
  refine ⟨?_, ?_, ?_, ?_, ?_, ?_, ?_⟩
  · intro j hj
    exact absurd hj (Finset.not_mem_empty j)
  · intro j hj _
    exact absurd hj (Nat.not_lt_zero j)
  · exact Nat.zero_le N
  · intro h
    cases h
  · intro _
    simpa [initSt] using hC
  · intro h
    cases h with
    | inl h => cases h
    | inr h => cases h
  · intro h
    cases h

theorem schedInv_step {N C : ℕ} {s s' : St}
    (h : SchedInv N C s) (hs : Step N C s s') : SchedInv N C s' := by
  cases hs with
  | term j hj hnt =>
      refine ⟨h.tracked_lt, ?_, h.next_le, h.card_check, h.card_other, h.at_end, ?_⟩
      · intro i hi hit
        exact h.active_mem i hi (fun hm => hit (Finset.mem_insert_of_mem hm))
      · intro hd i hiN
        exact Finset.mem_insert_of_mem (h.done_term hd i hiN)
  | launch hpc hn =>
      refine ⟨?_, ?_, hn, ?_, ?_, ?_, ?_⟩
      · intro j hj
        rcases Finset.mem_insert.mp hj with hj | hj
        · exact hj ▸ Nat.lt_succ_self s.next
        · exact Nat.lt_succ_of_lt (h.tracked_lt j hj)
      · intro i hi hit
        rcases Nat.lt_succ_iff_lt_or_eq.mp hi with hi | hi
        · exact Finset.mem_insert_of_mem (h.active_mem i hi hit)
        · exact hi ▸ Finset.mem_insert_self s.next s.tracked
      · intro _
        calc (insert s.next s.tracked).card ≤ s.tracked.card + 1 := Finset.card_insert_le _ _
          _ ≤ C := h.card_other (hpc ▸ fun hcontra => Pc.noConfusion hcontra)
      · intro hne
        exact absurd rfl hne
      · intro hor
        rcases hor with hcontra | hcontra <;> cases hcontra
      · intro hcontra
        cases hcontra
  | exitLoop hpc hn =>
      refine ⟨h.tracked_lt, h.active_mem, h.next_le, ?_, ?_, ?_, ?_⟩
      · intro hcontra
        cases hcontra
      · intro _
        exact h.card_other (hpc ▸ fun hcontra => Pc.noConfusion hcontra)
      · intro _
        exact hn
      · intro hcontra
        cases hcontra
  | noWait hpc hcard =>
      refine ⟨h.tracked_lt, h.active_mem, h.next_le, ?_, ?_, ?_, ?_⟩
      · intro hcontra
        cases hcontra
      · intro _
        exact hcard
      · intro hor
        rcases hor with hcontra | hcontra <;> cases hcontra
      · intro hcontra
        cases hcontra
  | waitPrune hpc hcard hw =>
      refine ⟨?_, ?_, h.next_le, ?_, ?_, ?_, ?_⟩
      · intro j hj
        exact h.tracked_lt j (Finset.mem_sdiff.mp hj).1
      · intro i hi hit
        exact Finset.mem_sdiff.mpr ⟨h.active_mem i hi hit, hit⟩
      · intro hcontra
        cases hcontra
      · intro _
        show (s.tracked \ s.term).card + 1 ≤ C
        have hlt : (s.tracked \ s.term).card < s.tracked.card := by
          apply Finset.card_lt_card
          rw [Finset.ssubset_iff_of_subset (Finset.sdiff_subset)]
          obtain ⟨x, hx⟩ := hw
          rcases Finset.mem_inter.mp hx with ⟨hx1, hx2⟩
          exact ⟨x, hx1, fun hmem => (Finset.mem_sdiff.mp hmem).2 hx2⟩
        have hle : s.tracked.card ≤ C := h.card_check hpc
        omega
      · intro hor
        rcases hor with hcontra | hcontra <;> cases hcontra
      · intro hcontra
        cases hcontra
  | drain hpc hsub =>
      refine ⟨h.tracked_lt, h.active_mem, h.next_le, ?_, ?_, ?_, ?_⟩
      · intro hcontra
        cases hcontra
      · intro _
        exact h.card_other (hpc ▸ fun hcontra => Pc.noConfusion hcontra)
      · intro _
        exact h.at_end (Or.inl hpc)
      · intro _ j hjN
        have hnext : s.next = N := h.at_end (Or.inl hpc)
        by_cases hterm : j ∈ s.term
        · exact hterm
        · exact hsub (h.active_mem j (hnext ▸ hjN) hterm)

theorem reach_schedInv {N C : ℕ} {s : St} (hC : 1 ≤ C) (hs : Reach N C s) :
    SchedInv N C s := by
  induction hs with
  | refl => exact schedInv_init N C hC
  | tail _ hstep ih => exact schedInv_step ih hstep

/-!
### Claim theorems
-/

/-- C1: for every batch of `N` job descriptors and every concurrency ceiling
`C` with `1 ≤ C ≤ N`, every reachable state of the scheduler loop of
`docking_process` / `second_round_docking` has at most `C` simultaneously
active external jobs, never launches more than `N` jobs, and when control
returns to the caller (`pc = done`) exactly `N` jobs have been launched and
all `N` have terminated. -/
theorem scheduler_bounded_concurrency (N C : ℕ) (hC : 1 ≤ C) (hCN : C ≤ N)
    (s : St) (hs : Reach N C s) :
    (activeSet s).card ≤ C ∧ s.next ≤ N ∧
      (s.pc = Pc.done → s.next = N ∧ ∀ j, j < N → j ∈ s.term) := by
  have _hCN := hCN
  have h := reach_schedInv hC hs
  have hsub : activeSet s ⊆ s.tracked := by
    intro j hj
    rcases Finset.mem_sdiff.mp hj with ⟨hj1, hj2⟩
    exact h.active_mem j (Finset.mem_range.mp hj1) hj2
  have hcard : (activeSet s).card ≤ s.tracked.card := Finset.card_le_card hsub
  refine ⟨?_, h.next_le, ?_⟩
  · by_cases hpc : s.pc = Pc.check
    · exact le_trans hcard (h.card_check hpc)
    · have := h.card_other hpc
      omega
  · intro hdone
    exact ⟨h.at_end (Or.inr hdone), h.done_term hdone⟩

/-- The state at the end of a complete concrete run of the scheduler on a
one-job batch with ceiling one: job 0 was launched, terminated, pruned from
the set after `os.wait`, the loop was left, the drain loop returned. -/
def doneSt : St :=
  { next := 1, tracked := insert 0 ∅ \ insert 0 (∅ : Finset ℕ),
    term := insert 0 ∅, pc := Pc.done }

theorem reach_doneSt : Reach 1 1 doneSt := by
  refine Relation.ReflTransGen.head (Step.launch initSt rfl (by decide)) ?_
  refine Relation.ReflTransGen.head (Step.term _ 0 (by decide) (by decide)) ?_
  refine Relation.ReflTransGen.head (Step.waitPrune _ rfl (by decide) (by decide)) ?_
  refine Relation.ReflTransGen.head (Step.exitLoop _ rfl (by decide)) ?_
  refine Relation.ReflTransGen.head (Step.drain _ rfl (by decide)) ?_
  exact Relation.ReflTransGen.refl

/-- Witness for C1: the hypotheses are satisfiable — at `N = 1`, `C = 1` the
fully drained `done` state is reachable — and the theorem's conclusions
evaluate there. -/
theorem scheduler_bounded_concurrency_witness :
    (1 ≤ 1) ∧ Reach 1 1 doneSt ∧
      ((activeSet doneSt).card ≤ 1 ∧ doneSt.next ≤ 1 ∧
        (doneSt.pc = Pc.done → doneSt.next = 1 ∧ ∀ j, j < 1 → j ∈ doneSt.term)) :=
  ⟨le_refl 1, reach_doneSt,
    scheduler_bounded_concurrency 1 1 (le_refl 1) (le_refl 1) doneSt reach_doneSt⟩

/-- The three result files of the spec's scenario, carrying the scores -5.0,
-9.3 and -7.1. -/
def scenarioFiles : List ResultFile :=
  [⟨"a.pdbqt", [Line.vinaResult (scoreLit (-5) 1)]⟩,
   ⟨"b.pdbqt", [Line.vinaResult (scoreLit (-93) 10)]⟩,
   ⟨"c.pdbqt", [Line.vinaResult (scoreLit (-71) 10)]⟩]

/-- C4: the ranking engine orders results ascending by score (adjacent
entries of any ranked selection are related by `byScore`) and keeps the first
`k` entries after sorting; on three result files with scores -5.0, -9.3 and
-7.1 and `k = 2` the selection is the ordered sequence [-9.3, -7.1] and
excludes -5.0; the ranking step of `analyze_results` orders the same three
files -9.3, -7.1, -5.0.  The conjuncts on `scoreLit` certify the decimal
values the literals denote. -/
theorem ranking_ascending_topk :
    (∀ (k : ℕ) (files : List ResultFile), (rankedSelection k files).Pairwise byScore)
    ∧ scoreLit (-93) 10 = -93/10 ∧ scoreLit (-71) 10 = -71/10 ∧ scoreLit (-5) 1 = -5
    ∧ rankedSelection 2 scenarioFiles =
        [(scoreLit (-93) 10, "b.pdbqt"), (scoreLit (-71) 10, "c.pdbqt")]
    ∧ (rankedSelection 2 scenarioFiles).filter (fun e => e.1 == scoreLit (-5) 1) = []
    ∧ analyzeRanking scenarioFiles =
        Except.ok ([], [(some (scoreLit (-93) 10), "b.pdbqt", []),
          (some (scoreLit (-71) 10), "c.pdbqt", []),
          (some (scoreLit (-5) 1), "a.pdbqt", [])]) := by
  refine ⟨?_, ?_, ?_, ?_, by decide, by decide, by rfl⟩
  · intro k files
    exact (List.sorted_insertionSort byScore (docking1Results files)).sublist
      (List.take_sublist k _)
  · rw [scoreLit, Rat.mk'_eq_divInt]
    norm_num [Rat.divInt_eq_div]
  · rw [scoreLit, Rat.mk'_eq_divInt]
    norm_num [Rat.divInt_eq_div]
  · rw [scoreLit, Rat.mk'_eq_divInt]
    norm_num [Rat.divInt_eq_div]

/-- Supporting lemma: the collection loop of `docking_process` produces one
entry per file with a present score. -/
theorem docking1Results_length (files : List ResultFile) :
    (docking1Results files).length = countPresent files := by
  induction files with
  | nil => rfl
  | cons f rest ih =>
      by_cases hf : endsWithPdbqt f.name
      · cases hsc : get_best_score f.lines with
        | none => simp [docking1Results, countPresent, List.filter_cons, hf, hsc,
            countPresent] at ih ⊢
                  exact ih
        | some s => simp [docking1Results, countPresent, List.filter_cons, hf, hsc] at ih ⊢
                    exact ih
      · simp [docking1Results, countPresent, List.filter_cons, hf] at ih ⊢
        exact ih

/-- The ranked selection of `docking_process` satisfies the truncation
invariant: its length is min(k, number of result files with a present
score). -/
theorem docking1_truncation (k : ℕ) (files : List ResultFile) :
    (rankedSelection k files).length = min k (countPresent files) := by
  have hperm := List.perm_insertionSort byScore (docking1Results files)
  rw [rankedSelection, List.length_take, hperm.length_eq, docking1Results_length]

/-- A single-file batch whose one result file has no result line. -/
def singleFailFile : List ResultFile := [⟨"a.pdbqt", [Line.other]⟩]

/-- C3 (code bug, evaluated at the failing input): on a single scoreless
result file, `analyze_results` reports the missing score yet produces a
selection of length 1 containing the scoreless record, while
min(K, number of records with a present score) = min(10, 0) = 0; the
corresponding selection of `docking_process` does satisfy the invariant. -/
theorem analyze_truncation_violated :
    analyzeRanking singleFailFile =
      Except.ok (["Failed to extract binding affinity score from a.pdbqt"],
        [(none, "a.pdbqt", [])])
    ∧ min 10 (countPresent singleFailFile) = 0
    ∧ (rankedSelection 10 singleFailFile).length = min 10 (countPresent singleFailFile) :=
  ⟨rfl, rfl, rfl⟩

/-- A two-file batch in which b.pdbqt has no result line and a.pdbqt scores
-5.0. -/
def failFiles : List ResultFile :=
  [⟨"b.pdbqt", [Line.other]⟩, ⟨"a.pdbqt", [Line.vinaResult (scoreLit (-5) 1)]⟩]

/-- C2 (code bug, evaluated at the failing input): when one result file has
no score, `analyze_results` prints the failure message but still appends the
scoreless record to `results`, and `results.sort` then aborts with a
`TypeError`, so the absent-score result is neither excluded from the ranked
selection nor does processing continue; the collection loop of
`docking_process`, by contrast, excludes the file but reports nothing. -/
theorem analyze_absent_score_aborts :
    analyzeCollect failFiles =
      Except.ok (["Failed to extract binding affinity score from b.pdbqt"],
        [(none, "b.pdbqt", []), (some (scoreLit (-5) 1), "a.pdbqt", [])])
    ∧ analyzeRanking failFiles = Except.error PyErr.typeError
    ∧ docking1Results failFiles = [(scoreLit (-5) 1, "a.pdbqt")] :=
  ⟨rfl, rfl, rfl⟩

end Docking
